import Mathlib

/-
  Verification development for the tsck-window repository.

  The Rust sources are shallowly embedded: machine integers (i32, isize,
  usize) become Int/Nat, f32 layout fractions become exact rationals with
  an explicit truncation toward zero for the value-to-integer casts, and
  f64 easing arithmetic becomes real arithmetic.  OS calls
  (EnumDisplayMonitors, SetWindowPos, get_monitor_index) are modelled as
  explicit inputs respectively emitted command lists.
-/

/-! Fibonacci tiling layout (src/src/fibonacci_layout.rs) -/

structure Rect where
  x : Int
  y : Int
  width : Int
  height : Int
deriving DecidableEq, Repr

structure SplitNode where
  window_index : Nat
  ratio_index : Nat
  is_horizontal : Bool
  parent_bounds : Rect
deriving DecidableEq, Repr

/-- Truncation toward zero of a rational, the semantics of the
value-to-i32 cast the Rust code applies to each computed split size. -/
def truncInt (q : ℚ) : Int :=
  if 0 ≤ q then ⌊q⌋ else ⌈q⌉

/-- Computable form of the product-then-truncate step
`(len as f32 * ratio) as i32`: since len * r = (len * r.num) / r.den with a
positive denominator, truncating that fraction toward zero is integer
t-division.  truncMul_eq_truncInt below identifies it with truncInt. -/
def truncMul (len : Int) (r : ℚ) : Int :=
  (len * r.num).tdiv r.den

/-- Embeds the clamp(0.2, 0.8) applied to every layout fraction. -/
def clampFrac (r : ℚ) : ℚ :=
  if r < mkRat 1 5 then mkRat 1 5 else if mkRat 4 5 < r then mkRat 4 5 else r

/-- Embeds subdivide_fibonacci_with_ratios_tracked. The argument k is the
number of rectangles already emitted, standing in for rects.len() of the
Rust code, which selects the fraction slot and numbers the nodes. -/
def subdivide_fibonacci_with_ratios_tracked (k : Nat) (x y width height : Int) (remaining depth : Nat)
    (swap : Bool) (ratios : List ℚ) : List Rect × List SplitNode :=
  match remaining with
  | 0 => ([], [])
  | 1 =>
    ([Rect.mk x y width height],
     [SplitNode.mk k k (decide (depth % 2 = 0)) (Rect.mk x y width height)])
  | m + 2 =>
    let rat := clampFrac (ratios.getD k (mkRat 1 2))
    if depth % 2 = 0 then
      let firstHeight := truncMul height rat
      let rest := subdivide_fibonacci_with_ratios_tracked (k + 1) x (y + firstHeight) width
        (height - firstHeight) (m + 1) (depth + 1) swap ratios
      (Rect.mk x y width firstHeight :: rest.1,
       SplitNode.mk k k true (Rect.mk x y width height) :: rest.2)
    else
      let firstWidth := truncMul width rat
      if swap then
        let rest := subdivide_fibonacci_with_ratios_tracked (k + 1) x y firstWidth height
          (m + 1) (depth + 1) swap ratios
        (Rect.mk (x + firstWidth) y (width - firstWidth) height :: rest.1,
         SplitNode.mk k k false (Rect.mk x y width height) :: rest.2)
      else
        let rest := subdivide_fibonacci_with_ratios_tracked (k + 1) (x + firstWidth) y
          (width - firstWidth) height (m + 1) (depth + 1) swap ratios
        (Rect.mk x y firstWidth height :: rest.1,
         SplitNode.mk k k false (Rect.mk x y width height) :: rest.2)

/-- Embeds calculate_fibonacci_layout_with_ratios. -/
def calculate_fibonacci_layout_with_ratios (w h : Int) (count : Nat) (swap : Bool)
    (ratios : List ℚ) : List Rect × List SplitNode :=
  match count with
  | 0 => ([], [])
  | 1 =>
    ([Rect.mk 0 0 w h], [SplitNode.mk 0 0 false (Rect.mk 0 0 w h)])
  | 2 =>
    let mainRat := clampFrac (ratios.getD 0 (mkRat 1 2))
    let mainWidth := truncMul w mainRat
    let mainX := if swap then w - mainWidth else 0
    let secondaryX := if swap then 0 else mainWidth
    ([Rect.mk mainX 0 mainWidth h, Rect.mk secondaryX 0 (w - mainWidth) h],
     [SplitNode.mk 0 0 false (Rect.mk 0 0 w h),
      SplitNode.mk 1 0 false (Rect.mk 0 0 w h)])
  | n + 3 =>
    let mainRat := clampFrac (ratios.getD 0 (mkRat 1 2))
    let mainWidth := truncMul w mainRat
    let mainX := if swap then w - mainWidth else 0
    let stackX := if swap then 0 else mainWidth
    let stackWidth := w - mainWidth
    let rest := subdivide_fibonacci_with_ratios_tracked 1 stackX 0 stackWidth h (n + 2) 0 swap ratios
    (Rect.mk mainX 0 mainWidth h :: rest.1,
     SplitNode.mk 0 0 false (Rect.mk 0 0 w h) :: rest.2)

/-- Membership of an integer point in the half-open rectangle. -/
def inRect (p : Int × Int) (r : Rect) : Prop :=
  r.x ≤ p.1 ∧ p.1 < r.x + r.width ∧ r.y ≤ p.2 ∧ p.2 < r.y + r.height

instance (p : Int × Int) (r : Rect) : Decidable (inRect p r) := by
  unfold inRect; infer_instance

/-- Two rectangles are disjoint when no integer point lies in both. -/
def RectDisjoint (a b : Rect) : Prop :=
  ∀ p : Int × Int, inRect p a → inRect p b → False

lemma truncMul_eq_truncInt (len : Int) (r : ℚ) :
    truncMul len r = truncInt ((len : ℚ) * r) := by
  have hden : (0:ℤ) < (r.den : ℤ) := by exact_mod_cast r.den_pos
  have key : ((len * r.num : ℤ) : ℚ) / ((r.den : ℕ) : ℚ) = (len : ℚ) * r := by
    have hnd := Rat.num_div_den r
    calc ((len * r.num : ℤ) : ℚ) / ((r.den : ℕ) : ℚ)
        = (len : ℚ) * ((r.num : ℚ) / (r.den : ℚ)) := by push_cast; ring
      _ = (len : ℚ) * r := by rw [hnd]
  rcases le_or_lt 0 (len * r.num) with ha | ha
  · have hq : 0 ≤ (len : ℚ) * r := by
      rw [← key]
      apply div_nonneg
      · exact_mod_cast ha
      · positivity
    unfold truncMul truncInt
    rw [if_pos hq, Int.tdiv_eq_ediv ha (by positivity), ← key,
      Rat.floor_intCast_div_natCast]
  · have hq : (len : ℚ) * r < 0 := by
      rw [← key]
      apply div_neg_of_neg_of_pos
      · exact_mod_cast ha
      · exact_mod_cast hden
    unfold truncMul truncInt
    rw [if_neg (not_le.mpr hq)]
    have hneg : len * r.num = -(-(len * r.num)) := by ring
    have hcast : ((-(len * r.num) : ℤ) : ℚ) / ((r.den : ℕ) : ℚ)
        = -((len : ℚ) * r) := by
      rw [← key]; push_cast; ring
    have hstep : (-(len * r.num)) / (r.den : ℤ) = ⌊-((len : ℚ) * r)⌋ := by
      rw [← hcast]
      exact (Rat.floor_intCast_div_natCast _ _).symm
    rw [hneg, Int.neg_tdiv,
      Int.tdiv_eq_ediv (by omega) (le_of_lt hden), hstep, Int.floor_neg,
      neg_neg]

lemma mkRat_one_five : (mkRat 1 5 : ℚ) = 1/5 := by
  norm_num [Rat.mkRat_eq_div]

lemma mkRat_four_five : (mkRat 4 5 : ℚ) = 4/5 := by
  norm_num [Rat.mkRat_eq_div]

lemma mkRat_one_two : (mkRat 1 2 : ℚ) = 1/2 := by
  norm_num [Rat.mkRat_eq_div]

lemma clampFrac_nonneg (r : ℚ) : 0 ≤ clampFrac r := by
  unfold clampFrac
  rw [mkRat_one_five, mkRat_four_five]
  split_ifs with h1 h2
  · norm_num
  · norm_num
  · push_neg at h1
    linarith

lemma clampFrac_le_one (r : ℚ) : clampFrac r ≤ 1 := by
  unfold clampFrac
  rw [mkRat_one_five, mkRat_four_five]
  split_ifs with h1 h2
  · norm_num
  · norm_num
  · push_neg at h2
    linarith

lemma truncMul_between (len : Int) (r : ℚ) :
    min 0 len ≤ truncMul len (clampFrac r) ∧
      truncMul len (clampFrac r) ≤ max 0 len := by
  rw [truncMul_eq_truncInt]
  have hc0 := clampFrac_nonneg r
  have hc1 := clampFrac_le_one r
  rcases le_or_lt 0 len with hl | hl
  · have hq0 : (0:ℚ) ≤ (len : ℚ) * clampFrac r := by
      apply mul_nonneg _ hc0
      exact_mod_cast hl
    have hqle : (len : ℚ) * clampFrac r ≤ (len : ℚ) := by
      calc (len : ℚ) * clampFrac r ≤ (len : ℚ) * 1 := by
            apply mul_le_mul_of_nonneg_left hc1
            exact_mod_cast hl
        _ = (len : ℚ) := mul_one _
    unfold truncInt
    rw [if_pos hq0]
    have h1 : (0:Int) ≤ ⌊(len : ℚ) * clampFrac r⌋ := by
      rw [Int.le_floor]; exact_mod_cast hq0
    have h2 : ⌊(len : ℚ) * clampFrac r⌋ ≤ len := by
      have := Int.floor_le_floor hqle
      rwa [Int.floor_intCast] at this
    omega
  · have hq0 : (len : ℚ) * clampFrac r ≤ 0 := by
      apply mul_nonpos_of_nonpos_of_nonneg _ hc0
      exact_mod_cast hl.le
    have hqge : (len : ℚ) ≤ (len : ℚ) * clampFrac r := by
      calc (len : ℚ) = (len : ℚ) * 1 := (mul_one _).symm
        _ ≤ (len : ℚ) * clampFrac r := by
            apply mul_le_mul_of_nonpos_left hc1
            exact_mod_cast hl.le
    unfold truncInt
    by_cases hpos : 0 ≤ (len : ℚ) * clampFrac r
    · rw [if_pos hpos]
      have hq : (len : ℚ) * clampFrac r = 0 := le_antisymm hq0 hpos
      rw [hq, Int.floor_zero]
      omega
    · rw [if_neg hpos]
      have h1 : len ≤ ⌈(len : ℚ) * clampFrac r⌉ := by
        have := Int.ceil_le_ceil hqge
        rwa [Int.ceil_intCast] at this
      have h2 : ⌈(len : ℚ) * clampFrac r⌉ ≤ 0 := by
        rw [Int.ceil_le]; exact_mod_cast hq0
      omega

lemma partition_cons (first : Rect) (rest : List Rect) (sub whole : Rect)
    (n : Nat) (hlen : rest.length = n)
    (hcov : ∀ p, (∃ r ∈ rest, inRect p r) ↔ inRect p sub)
    (hpw : List.Pairwise RectDisjoint rest)
    (hdisj : ∀ p, inRect p first → inRect p sub → False)
    (hsplit : ∀ p, inRect p first ∨ inRect p sub ↔ inRect p whole) :
    ((first :: rest).length = n + 1) ∧
      (∀ p, (∃ r ∈ first :: rest, inRect p r) ↔ inRect p whole) ∧
      List.Pairwise RectDisjoint (first :: rest) := by
  refine ⟨by simp [hlen], ?_, ?_⟩
  · intro p
    rw [← hsplit p]
    constructor
    · rintro ⟨r, hr, hpr⟩
      rcases List.mem_cons.mp hr with rfl | hr
      · exact Or.inl hpr
      · exact Or.inr ((hcov p).mp ⟨r, hr, hpr⟩)
    · rintro (h | h)
      · exact ⟨first, List.mem_cons_self _ _, h⟩
      · obtain ⟨r, hr, hpr⟩ := (hcov p).mpr h
        exact ⟨r, List.mem_cons_of_mem _ hr, hpr⟩
  · refine List.Pairwise.cons ?_ hpw
    intro b hb p hpf hpb
    exact hdisj p hpf ((hcov p).mp ⟨b, hb, hpb⟩)

/-- The recursive subdivision pass emits exactly remaining rectangles that
partition the half-open region it was handed. -/
theorem subdivideFibTracked_spec (remaining : Nat) (hr : 1 ≤ remaining)
    (k : Nat) (x y width height : Int) (depth : Nat) (swap : Bool)
    (ratios : List ℚ) :
    ((subdivide_fibonacci_with_ratios_tracked k x y width height remaining depth swap ratios).1.length
        = remaining) ∧
      (∀ p : Int × Int,
        (∃ r ∈ (subdivide_fibonacci_with_ratios_tracked k x y width height remaining depth swap
          ratios).1, inRect p r) ↔ inRect p (Rect.mk x y width height)) ∧
      List.Pairwise RectDisjoint
        (subdivide_fibonacci_with_ratios_tracked k x y width height remaining depth swap ratios).1 := by
  induction remaining generalizing k x y width height depth with
  | zero => omega
  | succ n ih =>
    match n with
    | 0 =>
      refine ⟨rfl, ?_, by simp [subdivide_fibonacci_with_ratios_tracked]⟩
      intro p
      simp [subdivide_fibonacci_with_ratios_tracked]
    | m + 1 =>
      have ihs := fun k x y width height depth =>
        ih (by omega) k x y width height depth
      show _ ∧ _ ∧ _
      simp only [subdivide_fibonacci_with_ratios_tracked]
      by_cases hd : depth % 2 = 0
      · rw [if_pos hd]
        obtain ⟨hfh1, hfh2⟩ :=
          truncMul_between height (ratios.getD k (mkRat 1 2))
        obtain ⟨hl, hc, hp⟩ := ihs (k + 1) x
          (y + truncMul height (clampFrac (ratios.getD k (mkRat 1 2)))) width
          (height - truncMul height (clampFrac (ratios.getD k (mkRat 1 2))))
          (depth + 1)
        exact partition_cons _ _ _ _ _ hl hc hp
          (by intro p h1 h2; unfold inRect at h1 h2; dsimp at h1 h2; omega)
          (by intro p; unfold inRect; dsimp; omega)
      · rw [if_neg hd]
        obtain ⟨hfw1, hfw2⟩ :=
          truncMul_between width (ratios.getD k (mkRat 1 2))
        cases swap with
        | true =>
          rw [if_pos rfl]
          obtain ⟨hl, hc, hp⟩ := ihs (k + 1) x y
            (truncMul width (clampFrac (ratios.getD k (mkRat 1 2)))) height
            (depth + 1)
          exact partition_cons _ _ _ _ _ hl hc hp
            (by intro p h1 h2; unfold inRect at h1 h2; dsimp at h1 h2; omega)
            (by intro p; unfold inRect; dsimp; omega)
        | false =>
          rw [if_neg Bool.false_ne_true]
          obtain ⟨hl, hc, hp⟩ := ihs (k + 1)
            (x + truncMul width (clampFrac (ratios.getD k (mkRat 1 2)))) y
            (width - truncMul width (clampFrac (ratios.getD k (mkRat 1 2))))
            height (depth + 1)
          exact partition_cons _ _ _ _ _ hl hc hp
            (by intro p h1 h2; unfold inRect at h1 h2; dsimp at h1 h2; omega)
            (by intro p; unfold inRect; dsimp; omega)

/-- C3. For every count of at least 1, every monitor width and height, every
swap flag and every ratio vector, the fibonacci layout emits exactly count
rectangles whose union is exactly the half-open monitor rectangle and which
are pairwise disjoint. -/
theorem fib_layout_partition (w h : Int) (count : Nat) (swap : Bool)
    (ratios : List ℚ) (hc : 1 ≤ count) :
    ((calculate_fibonacci_layout_with_ratios w h count swap ratios).1.length = count) ∧
      (∀ p : Int × Int,
        (∃ r ∈ (calculate_fibonacci_layout_with_ratios w h count swap ratios).1, inRect p r)
          ↔ inRect p (Rect.mk 0 0 w h)) ∧
      List.Pairwise RectDisjoint
        (calculate_fibonacci_layout_with_ratios w h count swap ratios).1 := by
  match count with
  | 0 => omega
  | 1 =>
    refine ⟨rfl, ?_, by simp [calculate_fibonacci_layout_with_ratios]⟩
    intro p
    simp [calculate_fibonacci_layout_with_ratios]
  | 2 =>
    obtain ⟨hm1, hm2⟩ := truncMul_between w (ratios.getD 0 (mkRat 1 2))
    simp only [calculate_fibonacci_layout_with_ratios]
    cases swap with
    | true =>
      rw [if_pos rfl, if_pos rfl]
      exact partition_cons _ _
        (Rect.mk 0 0 (w - truncMul w (clampFrac (ratios.getD 0 (mkRat 1 2)))) h)
        (Rect.mk 0 0 w h) 1 rfl (by intro p; simp) (by simp)
        (by intro p h1 h2; unfold inRect at h1 h2; dsimp at h1 h2; omega)
        (by intro p; unfold inRect; dsimp; omega)
    | false =>
      rw [if_neg Bool.false_ne_true, if_neg Bool.false_ne_true]
      exact partition_cons _ _
        (Rect.mk (truncMul w (clampFrac (ratios.getD 0 (mkRat 1 2)))) 0
          (w - truncMul w (clampFrac (ratios.getD 0 (mkRat 1 2)))) h)
        (Rect.mk 0 0 w h) 1 rfl (by intro p; simp) (by simp)
        (by intro p h1 h2; unfold inRect at h1 h2; dsimp at h1 h2; omega)
        (by intro p; unfold inRect; dsimp; omega)
  | n + 3 =>
    obtain ⟨hm1, hm2⟩ := truncMul_between w (ratios.getD 0 (mkRat 1 2))
    simp only [calculate_fibonacci_layout_with_ratios]
    cases swap with
    | true =>
      rw [if_pos rfl, if_pos rfl]
      obtain ⟨hl, hcov, hp⟩ := subdivideFibTracked_spec (n + 2) (by omega) 1 0 0
        (w - truncMul w (clampFrac (ratios.getD 0 (mkRat 1 2)))) h 0 true ratios
      exact partition_cons _ _
        (Rect.mk 0 0 (w - truncMul w (clampFrac (ratios.getD 0 (mkRat 1 2)))) h)
        (Rect.mk 0 0 w h) (n + 2) hl hcov hp
        (by intro p h1 h2; unfold inRect at h1 h2; dsimp at h1 h2; omega)
        (by intro p; unfold inRect; dsimp; omega)
    | false =>
      rw [if_neg Bool.false_ne_true, if_neg Bool.false_ne_true]
      obtain ⟨hl, hcov, hp⟩ := subdivideFibTracked_spec (n + 2) (by omega) 1
        (truncMul w (clampFrac (ratios.getD 0 (mkRat 1 2)))) 0
        (w - truncMul w (clampFrac (ratios.getD 0 (mkRat 1 2)))) h 0 false ratios
      exact partition_cons _ _
        (Rect.mk (truncMul w (clampFrac (ratios.getD 0 (mkRat 1 2)))) 0
          (w - truncMul w (clampFrac (ratios.getD 0 (mkRat 1 2)))) h)
        (Rect.mk 0 0 w h) (n + 2) hl hcov hp
        (by intro p h1 h2; unfold inRect at h1 h2; dsimp at h1 h2; omega)
        (by intro p; unfold inRect; dsimp; omega)

/-- C3 witness: the partition theorem applied at a concrete instance. -/
theorem fib_layout_partition_witness :
    ((calculate_fibonacci_layout_with_ratios 1920 1080 5 false [mkRat 3 10]).1.length = 5) ∧
      (∀ p : Int × Int,
        (∃ r ∈ (calculate_fibonacci_layout_with_ratios 1920 1080 5 false [mkRat 3 10]).1,
          inRect p r) ↔ inRect p (Rect.mk 0 0 1920 1080)) ∧
      List.Pairwise RectDisjoint
        (calculate_fibonacci_layout_with_ratios 1920 1080 5 false [mkRat 3 10]).1 :=
  fib_layout_partition 1920 1080 5 false [mkRat 3 10] (by decide)

/-- The default ratio vector seeded by the resize handler,
vec![0.5; count.max(10)] for count = 3 (src/src/wh_handler.rs). -/
def defaultResizeRatios : List ℚ :=
  List.replicate 10 (mkRat 1 2)

lemma clampFrac_eq_self (r : ℚ) (hlo : mkRat 1 5 ≤ r) (hhi : r ≤ mkRat 4 5) :
    clampFrac r = r := by
  unfold clampFrac
  rw [if_neg (not_lt.mpr hlo), if_neg (not_lt.mpr hhi)]

lemma den_ne_zero_of_mkRat_lb (d : ℤ) (w : ℕ) (hlo : mkRat 1 5 ≤ mkRat d w) :
    w ≠ 0 := by
  intro hzero
  subst hzero
  simp only [Rat.mkRat_zero] at hlo
  rw [mkRat_one_five] at hlo
  norm_num at hlo

lemma truncMul_mkRat_cancel (d : ℤ) (w : ℕ) (hw : w ≠ 0) :
    truncMul (w : ℤ) (mkRat d w) = d := by
  rw [truncMul_eq_truncInt, Rat.mkRat_eq_div]
  have hw0 : ((w : ℕ) : ℚ) ≠ 0 := Nat.cast_ne_zero.mpr hw
  have hval : (((w : ℤ) : ℚ)) * ((d : ℚ) / ((w : ℕ) : ℚ)) = (d : ℚ) := by
    push_cast
    field_simp
  rw [hval]
  unfold truncInt
  split_ifs with hd
  · exact Int.floor_intCast d
  · exact Int.ceil_intCast d

/-- C5 counterexample: in the layout for count 3 with default ratios, the
last window's split node points at ratio slot 2 with parent width 50; the
ratio implied by resizing that window to width 25 is 25/50, inside the
clamp band, yet recomputing the layout with slot 2 updated leaves the
window's width at 50, not 25. -/
theorem fib_roundtrip_counterexample :
    ((calculate_fibonacci_layout_with_ratios 100 100 3 false defaultResizeRatios).2.getD 2
        (SplitNode.mk 0 0 false (Rect.mk 0 0 0 0))) =
      SplitNode.mk 2 2 false (Rect.mk 50 50 50 50) ∧
    clampFrac (mkRat 25 50) = mkRat 25 50 ∧
    ((calculate_fibonacci_layout_with_ratios 100 100 3 false
        (defaultResizeRatios.set 2 (mkRat 25 50))).1.getD 2
        (Rect.mk 0 0 0 0)).width = 50 ∧
    (50 : Int) ≠ 25 := by
  decide

/-- C5 amended: the ratio round-trip holds for the two windows whose split
node controls a ratio slot that the recomputation actually reads (windows 0
and 1 of the count 3 layout); the terminal window's slot is never read, so
its dimension is not reproduced (see the counterexample). Solving the
ratio from a target width d0 for window 0 (respectively target height d1
for window 1) and recomputing reproduces exactly that dimension. -/
theorem fib_roundtrip_for_consumed_slots (w h : ℕ) (d0 d1 : ℤ)
    (h0lo : mkRat 1 5 ≤ mkRat d0 w) (h0hi : mkRat d0 w ≤ mkRat 4 5)
    (h1lo : mkRat 1 5 ≤ mkRat d1 h) (h1hi : mkRat d1 h ≤ mkRat 4 5) :
    (((calculate_fibonacci_layout_with_ratios w h 3 false
        (defaultResizeRatios.set 0 (mkRat d0 w))).1.getD 0
        (Rect.mk 0 0 0 0)).width = d0) ∧
    (((calculate_fibonacci_layout_with_ratios w h 3 false
        (defaultResizeRatios.set 1 (mkRat d1 h))).1.getD 1
        (Rect.mk 0 0 0 0)).height = d1) := by
  have hw := den_ne_zero_of_mkRat_lb d0 w h0lo
  have hh := den_ne_zero_of_mkRat_lb d1 h h1lo
  constructor
  · show (Rect.width _) = d0
    simp only [calculate_fibonacci_layout_with_ratios, defaultResizeRatios, List.replicate,
      List.set, List.getD_cons_zero]
    rw [clampFrac_eq_self _ h0lo h0hi]
    exact truncMul_mkRat_cancel d0 w hw
  · show (Rect.height _) = d1
    simp only [calculate_fibonacci_layout_with_ratios, subdivide_fibonacci_with_ratios_tracked,
      defaultResizeRatios, List.replicate, List.set, List.getD_cons_zero,
      List.getD_cons_succ, Nat.zero_mod, reduceIte]
    rw [clampFrac_eq_self _ h1lo h1hi]
    exact truncMul_mkRat_cancel d1 h hh

/-- C5 witness: the amended round-trip theorem applied at width 100, height
100, target width 30 for window 0 and target height 40 for window 1. -/
theorem fib_roundtrip_for_consumed_slots_witness :
    (((calculate_fibonacci_layout_with_ratios 100 100 3 false
        (defaultResizeRatios.set 0 (mkRat 30 100))).1.getD 0
        (Rect.mk 0 0 0 0)).width = 30) ∧
    (((calculate_fibonacci_layout_with_ratios 100 100 3 false
        (defaultResizeRatios.set 1 (mkRat 40 100))).1.getD 1
        (Rect.mk 0 0 0 0)).height = 40) :=
  fib_roundtrip_for_consumed_slots 100 100 30 40 (by decide) (by decide)
    (by decide) (by decide)

lemma fib_layout_sample_rects :
    (calculate_fibonacci_layout_with_ratios 100 100 3 false []).1 =
      [Rect.mk 0 0 50 100, Rect.mk 50 0 50 50, Rect.mk 50 50 50 50] := by
  decide

lemma fib_layout_sample_nodes :
    (calculate_fibonacci_layout_with_ratios 100 100 3 false []).2 =
      [SplitNode.mk 0 0 false (Rect.mk 0 0 100 100),
       SplitNode.mk 1 1 true (Rect.mk 50 0 50 100),
       SplitNode.mk 2 2 false (Rect.mk 50 50 50 50)] := by
  decide

/-! Color parsing (src/src/overlay/color.rs) -/

/-- Embeds D2D1_COLOR_F with exact rational channel values; a byte value v
scaled by the f32 division v / 255.0 is represented exactly as v/255. -/
structure D2DColorF where
  r : ℚ
  g : ℚ
  b : ℚ
  a : ℚ
deriving DecidableEq, Repr

/-- Embeds Color::hex. The bit masks (col >> k) & 0xFF become shifts with
remainder by 256. -/
def Color.hex (col : Nat) : D2DColorF :=
  let a : ℚ := mkRat (((col >>> 24) % 256 : Nat) : Int) 255
  { r := mkRat (((col >>> 16) % 256 : Nat) : Int) 255
    g := mkRat (((col >>> 8) % 256 : Nat) : Int) 255
    b := mkRat ((col % 256 : Nat) : Int) 255
    a := if 0 < a then a else 1 }

/-- Value of one hex digit, case insensitive, as accepted by
u32::from_str_radix(hex, 16). -/
def hexDigitValue (c : Char) : Option Nat :=
  if ('0' ≤ c ∧ c ≤ '9') then some (c.toNat - Char.toNat '0')
  else if ('a' ≤ c ∧ c ≤ 'f') then some (c.toNat - Char.toNat 'a' + 10)
  else if ('A' ≤ c ∧ c ≤ 'F') then some (c.toNat - Char.toNat 'A' + 10)
  else none

def hexFoldStep (acc : Option Nat) (c : Char) : Option Nat :=
  match acc, hexDigitValue c with
  | some n, some d => some (16 * n + d)
  | _, _ => none

def parseHexCore (s : List Char) : Option Nat :=
  s.foldl hexFoldStep (some 0)

/-- Embeds u32::from_str_radix(s, 16): an optional single leading plus
sign, at least one digit, every character a hex digit, and the value must
fit in 32 bits; any violation is an error, which Color::str turns into a
panic through .expect. -/
def fromStrRadix16 (s : List Char) : Option Nat :=
  let digits := if s.head? = some '+' then s.tail else s
  if digits.isEmpty then none
  else
    match parseHexCore digits with
    | none => none
    | some v => if v < 2 ^ 32 then some v else none

/-- The length dispatch of Color::str once parsing has succeeded: exactly
6 digits decode RRGGBB fully opaque, exactly 8 digits decode RRGGBBAA with
the last byte as alpha, anything else is 50 percent opaque black. -/
def colorOfParsedHex (hex : List Char) (value : Nat) : D2DColorF :=
  if hex.length = 6 then
    { r := mkRat (((value >>> 16) % 256 : Nat) : Int) 255
      g := mkRat (((value >>> 8) % 256 : Nat) : Int) 255
      b := mkRat ((value % 256 : Nat) : Int) 255
      a := 1 }
  else if hex.length = 8 then
    { r := mkRat (((value >>> 24) % 256 : Nat) : Int) 255
      g := mkRat (((value >>> 16) % 256 : Nat) : Int) 255
      b := mkRat (((value >>> 8) % 256 : Nat) : Int) 255
      a := mkRat ((value % 256 : Nat) : Int) 255 }
  else
    { r := 0, g := 0, b := 0, a := mkRat 1 2 }

/-- Embeds Color::str; none models the .expect panic on an unparsable
string. trim_start_matches removes every leading hash character. -/
def Color.str (s : String) : Option D2DColorF :=
  let hex := s.data.dropWhile (fun c => c = '#')
  (fromStrRadix16 hex).map (fun value => colorOfParsedHex hex value)

/-- C6. The eight-digit string form decodes RRGGBBAA (alpha is the last
byte) while the u32 form decodes AARRGGBB (alpha is the top byte): both
inputs here denote red at alpha 128/255, with the alpha byte at opposite
ends of the 32-bit value. -/
theorem color_str_hex_alpha_byte_order :
    Color.str ("#FF000080") = some (D2DColorF.mk 1 0 0 (mkRat 128 255)) ∧
    Color.hex 0x80FF0000 = D2DColorF.mk 1 0 0 (mkRat 128 255) := by
  decide

/-- C7 counterexample: nine hex digits survive the length hypothesis of the
claim, yet the value exceeds 32 bits, so from_str_radix errors and the
.expect panics (modelled as none) instead of producing 50 percent black. -/
theorem color_str_fallback_counterexample :
    (∀ c ∈ ("FFFFFFFFF").data.dropWhile (fun c => c = '#'),
      (hexDigitValue c).isSome) ∧
    (("FFFFFFFFF").data.dropWhile (fun c => c = '#')).length = 9 ∧
    Color.str ("FFFFFFFFF") = none ∧
    Color.str ("FFFFFFFFF") ≠ some (D2DColorF.mk 0 0 0 (mkRat 1 2)) := by
  decide

lemma foldl_hexFoldStep_none (s : List Char) :
    s.foldl hexFoldStep none = none := by
  induction s with
  | nil => rfl
  | cons c rest ih =>
    simp only [List.foldl_cons]
    have : hexFoldStep none c = none := rfl
    rw [this, ih]

/-- C7 amended: the 50 percent black fallback is returned for a hex digit
string of length other than 6 or 8 only when the string is nonempty and its
value fits in 32 bits; an empty string or an overflowing value makes
Color::str panic instead (see the counterexample). -/
theorem color_str_fallback (s : String) (v : Nat)
    (hne : s.data.dropWhile (fun c => c = '#') ≠ [])
    (hp : parseHexCore (s.data.dropWhile (fun c => c = '#')) = some v)
    (hv : v < 2 ^ 32)
    (h6 : (s.data.dropWhile (fun c => c = '#')).length ≠ 6)
    (h8 : (s.data.dropWhile (fun c => c = '#')).length ≠ 8) :
    Color.str s = some (D2DColorF.mk 0 0 0 (mkRat 1 2)) := by
  have hhead : (s.data.dropWhile (fun c => c = '#')).head? ≠ some '+' := by
    intro hplus
    obtain ⟨rest, hrest⟩ :
        ∃ rest, s.data.dropWhile (fun c => c = '#') = '+' :: rest := by
      cases hlist : s.data.dropWhile (fun c => c = '#') with
      | nil => exact absurd hlist hne
      | cons c rest =>
        rw [hlist] at hplus
        simp only [List.head?_cons, Option.some.injEq] at hplus
        exact ⟨rest, by rw [hplus]⟩
    rw [hrest] at hp
    simp only [parseHexCore, List.foldl_cons] at hp
    have hstep : hexFoldStep (some 0) '+' = none := rfl
    rw [hstep, foldl_hexFoldStep_none] at hp
    exact Option.noConfusion hp
  have hparse : fromStrRadix16 (s.data.dropWhile (fun c => c = '#'))
      = some v := by
    unfold fromStrRadix16
    rw [if_neg hhead, if_neg (by simpa [List.isEmpty_iff] using hne), hp]
    show (if v < 2 ^ 32 then some v else none) = some v
    rw [if_pos hv]
  simp only [Color.str, hparse, colorOfParsedHex, if_neg h6, if_neg h8]
  rfl

/-- C7 witness: the amended fallback theorem applied to the three-digit
string ABC, whose value is 2748. -/
theorem color_str_fallback_witness :
    Color.str ("ABC") = some (D2DColorF.mk 0 0 0 (mkRat 1 2)) :=
  color_str_fallback "ABC" 2748 (by decide) (by decide) (by decide)
    (by decide) (by decide)

/-! Monitor enumeration (src/src/overlay/monitor_info.rs and
src/src/hook/win_api.rs) -/

/-- One successful GetMonitorInfoW result as delivered by the OS
enumeration callback, in OS enumeration order: the full monitor rectangle,
the work-area rectangle and the primary flag. -/
structure RawMonitor where
  handle : Int
  monLeft : Int
  monTop : Int
  monRight : Int
  monBottom : Int
  workLeft : Int
  workTop : Int
  workRight : Int
  workBottom : Int
  primaryFlag : Bool
deriving DecidableEq, Repr

structure StatusbarMonitorInfo where
  handle : Int
  index : Nat
  x : Int
  y : Int
  width : Int
  height : Int
  is_primary : Bool
deriving DecidableEq, Repr

structure HookMonitorInfo where
  handle : Int
  top : Int
  left : Int
  bottom : Int
  right : Int
  width : Int
  height : Int
deriving DecidableEq, Repr

/-- Embeds win_api::get_toolbar_height. -/
def get_toolbar_height (monitor : Nat) : Int :=
  if monitor = 0 then 25 else 0

/-- Embeds monitor_info::get_monitors, parametrised by the OS enumeration:
each callback invocation pushes an entry whose index field is the length
of the vector so far, that is the OS enumeration position; no sorting. -/
def get_monitors (enumerated : List RawMonitor) : List StatusbarMonitorInfo :=
  enumerated.enum.map fun p =>
    { handle := p.2.handle
      index := p.1
      x := p.2.monLeft
      y := p.2.monTop
      width := p.2.monRight - p.2.monLeft
      height := p.2.monBottom - p.2.monTop
      is_primary := p.2.primaryFlag }

/-- Embeds win_api::get_all_monitors of the hook generation: the callback
reads the work area, reserves the toolbar allowance of the running index,
and the collected vector is then sorted by left edge (sort_by_key, a
stable merge sort). -/
def get_all_monitors (enumerated : List RawMonitor) : List HookMonitorInfo :=
  let collected := enumerated.enum.map fun p =>
    { handle := p.2.handle
      top := p.2.workTop + get_toolbar_height p.1
      left := p.2.workLeft
      bottom := p.2.workBottom
      right := p.2.workRight
      width := p.2.workRight - p.2.workLeft
      height := p.2.workBottom - p.2.workTop - get_toolbar_height p.1
      : HookMonitorInfo }
  collected.mergeSort (fun a b => a.left ≤ b.left)

def demoRawMonitor (hnd xoff : Int) (primary : Bool) : RawMonitor :=
  { handle := hnd
    monLeft := xoff
    monTop := 0
    monRight := xoff + 1920
    monBottom := 1080
    workLeft := xoff
    workTop := 0
    workRight := xoff + 1920
    workBottom := 1040
    primaryFlag := primary }

/-- The three-monitor setup of the claim, enumerated by the OS with
x-offsets 1920, 0, 3840 in that order. -/
def demoEnumeration : List RawMonitor :=
  [demoRawMonitor 1 1920 true, demoRawMonitor 2 0 false,
   demoRawMonitor 3 3840 false]

/-- C4 counterexample: get_monitors performs no sort, so for monitors
enumerated at x-offsets 1920, 0, 3840 the index fields follow enumeration
order; index 0 carries x = 1920, refuting the claimed sorted assignment
where index 0 would be the monitor at x = 0. -/
theorem get_monitors_order_counterexample :
    (get_monitors demoEnumeration).map (fun m => (m.index, m.x)) =
      [(0, 1920), (1, 0), (2, 3840)] ∧
    ¬ ((get_monitors demoEnumeration).map (fun m => (m.index, m.x)) =
      [(0, 0), (1, 1920), (2, 3840)]) := by
  decide

/-- C4 amended: get_monitors returns the displays in OS enumeration order
with each index field equal to its enumeration position, while the hook
generation's get_all_monitors (which carries no index field) is the one
that sorts by left edge ascending; it returns a permutation of the
collected work-area entries, pairwise ordered by left edge. -/
theorem monitor_enumeration_order (enumerated : List RawMonitor) :
    ((get_monitors enumerated).map (fun m => (m.index, m.x)) =
      enumerated.enum.map (fun p => (p.1, p.2.monLeft))) ∧
    List.Pairwise (fun a b => a.left ≤ b.left) (get_all_monitors enumerated) ∧
    ((get_all_monitors enumerated).length = enumerated.length) := by
  refine ⟨?_, ?_, ?_⟩
  · simp only [get_monitors, List.map_map]
    rfl
  · have hs := @List.sorted_mergeSort HookMonitorInfo
      (fun a b : HookMonitorInfo => decide (a.left ≤ b.left))
      (fun a b c hab hbc => by
        simp only [decide_eq_true_eq] at hab hbc ⊢
        omega)
      (fun a b => by
        simp only [Bool.or_eq_true, decide_eq_true_eq]
        omega)
      (enumerated.enum.map fun p =>
        { handle := p.2.handle
          top := p.2.workTop + get_toolbar_height p.1
          left := p.2.workLeft
          bottom := p.2.workBottom
          right := p.2.workRight
          width := p.2.workRight - p.2.workLeft
          height := p.2.workBottom - p.2.workTop - get_toolbar_height p.1
          : HookMonitorInfo })
    unfold get_all_monitors
    refine List.Pairwise.imp ?_ hs
    intro a b hab
    simpa using hab
  · unfold get_all_monitors
    rw [List.length_mergeSort, List.length_map, List.enum_length]

/-! Workspaces and the placement manager
(src/src/overlay/workspaces.rs, src/src/overlay/overlay_handler.rs,
src/src/hook/api.rs) -/

structure HwndItem where
  hwnd : Int
  app_name : String
  monitor : Nat
  parked_position : Option Int
deriving DecidableEq, Repr

structure Workspace where
  text : String
  active : Bool
  hwnds : List HwndItem
deriving DecidableEq, Repr

def HwndItem.new (hwnd : Int) (app_name : String) (monitor : Nat) : HwndItem :=
  { hwnd := hwnd, app_name := app_name, monitor := monitor,
    parked_position := none }

def Workspace.new (ws : String) (hwnds : List HwndItem) : Workspace :=
  { text := ws, active := true, hwnds := hwnds }

/-- Embeds workspaces.get_mut(workspace_index) followed by a push: only
the workspace at that index, when it exists, gains the item. -/
def pushAt (wss : List Workspace) (k : Nat) (item : HwndItem) : List Workspace :=
  match wss, k with
  | [], _ => []
  | ws :: rest, 0 => { ws with hwnds := ws.hwnds ++ [item] } :: rest
  | ws :: rest, j + 1 => ws :: pushAt rest j item

/-- Embeds assign_app_to_workspace (both the overlay handler and the hook
api version carry the same workspace logic): an empty workspace list gets
a fresh Main workspace holding just this window; otherwise the handle is
removed from every workspace before being appended to the target. -/
def assign_app_to_workspace (wss : List Workspace) (workspace_index : Nat)
    (hwnd : Int) (app_name : String) (monitor : Nat) : List Workspace :=
  if wss.isEmpty then
    [Workspace.new "Main" [HwndItem.new hwnd app_name monitor]]
  else
    pushAt
      (wss.map fun ws =>
        { ws with hwnds := ws.hwnds.filter (fun h => h.hwnd ≠ hwnd) })
      workspace_index (HwndItem.new hwnd app_name monitor)

def wsContains (ws : Workspace) (hwnd : Int) : Bool :=
  ws.hwnds.any (fun h => h.hwnd = hwnd)

/-- Number of workspaces whose membership list mentions the handle. -/
def workspacesHolding (wss : List Workspace) (hwnd : Int) : Nat :=
  wss.countP (fun ws => wsContains ws hwnd)

structure AssignCall where
  workspace_index : Nat
  hwnd : Int
  app_name : String
  monitor : Nat

def runAssigns (wss : List Workspace) (calls : List AssignCall) : List Workspace :=
  calls.foldl
    (fun acc c => assign_app_to_workspace acc c.workspace_index c.hwnd
      c.app_name c.monitor) wss

lemma wsContains_removeAll_self (ws : Workspace) (t : Int) :
    wsContains
      { ws with hwnds := ws.hwnds.filter (fun h => h.hwnd ≠ t) } t = false := by
  simp only [wsContains, List.any_filter]
  rw [List.any_eq_false]
  intro h hmem
  simp

lemma wsContains_removeAll_other (ws : Workspace) (t o : Int) (hne : o ≠ t) :
    wsContains
        { ws with hwnds := ws.hwnds.filter (fun h => h.hwnd ≠ t) } o =
      wsContains ws o := by
  simp only [wsContains, List.any_filter]
  have hpt : ∀ h : HwndItem,
      (decide (h.hwnd ≠ t) && decide (h.hwnd = o)) = decide (h.hwnd = o) := by
    intro h
    by_cases hh : h.hwnd = o
    · rw [hh]
      simp [hne]
    · simp [hh]
  simp only [hpt]

lemma countP_pushAt_le (wss : List Workspace) (k : Nat) (item : HwndItem)
    (p : Workspace → Bool) :
    (pushAt wss k item).countP p ≤ wss.countP p + 1 := by
  induction wss generalizing k with
  | nil => simp [pushAt]
  | cons ws rest ih =>
    cases k with
    | zero =>
      simp only [pushAt, List.countP_cons]
      split_ifs <;> omega
    | succ j =>
      simp only [pushAt, List.countP_cons]
      have := ih j
      split_ifs <;> omega

lemma countP_pushAt_eq (wss : List Workspace) (k : Nat) (item : HwndItem)
    (p : Workspace → Bool)
    (hfix : ∀ ws : Workspace, p { ws with hwnds := ws.hwnds ++ [item] } = p ws) :
    (pushAt wss k item).countP p = wss.countP p := by
  induction wss generalizing k with
  | nil => simp [pushAt]
  | cons ws rest ih =>
    cases k with
    | zero =>
      simp only [pushAt, List.countP_cons, hfix]
    | succ j =>
      simp only [pushAt, List.countP_cons, ih j]

lemma assign_preserves_at_most_one (wss : List Workspace)
    (hinv : ∀ hw : Int, workspacesHolding wss hw ≤ 1) (k : Nat) (hwnd : Int)
    (name : String) (monitor : Nat) :
    ∀ hw : Int,
      workspacesHolding (assign_app_to_workspace wss k hwnd name monitor) hw ≤ 1 := by
  intro hw
  unfold assign_app_to_workspace
  by_cases hempty : wss.isEmpty
  · rw [if_pos hempty]
    simp only [workspacesHolding, List.countP_cons, List.countP_nil]
    split_ifs <;> omega
  · rw [if_neg hempty]
    by_cases hhw : hw = hwnd
    · rw [hhw]
      unfold workspacesHolding
      have hle := countP_pushAt_le
        (wss.map fun ws =>
          { ws with hwnds := ws.hwnds.filter (fun h => h.hwnd ≠ hwnd) })
        k (HwndItem.new hwnd name monitor) (fun ws => wsContains ws hwnd)
      have hzero : (wss.map fun ws =>
          { ws with hwnds := ws.hwnds.filter (fun h => h.hwnd ≠ hwnd) }).countP
            (fun ws => wsContains ws hwnd) = 0 := by
        rw [List.countP_eq_zero]
        intro ws hmem
        obtain ⟨ws0, hws0, rfl⟩ := List.mem_map.mp hmem
        intro hcontr
        simp only [wsContains, List.any_filter, List.any_eq_true] at hcontr
        obtain ⟨h, hmem2, hcontr⟩ := hcontr
        simp at hcontr
      omega
    · unfold workspacesHolding
      rw [countP_pushAt_eq _ _ _ _ ?hfix]
      case hfix =>
        intro ws
        simp only [wsContains, List.any_append, List.any_cons, List.any_nil,
          HwndItem.new, Bool.or_false]
        have : decide (hwnd = hw) = false := by
          simp
          exact fun heq => hhw heq.symm
        rw [this, Bool.or_false]
      rw [List.countP_map]
      have hcongr : (wss.countP
          ((fun ws => wsContains ws hw) ∘ fun ws =>
            { ws with hwnds := ws.hwnds.filter (fun h => h.hwnd ≠ hwnd) })) =
          wss.countP (fun ws => wsContains ws hw) := by
        apply List.countP_congr
        intro ws hmem
        simp only [Function.comp_apply]
        rw [wsContains_removeAll_other ws hwnd hw hhw]
      rw [hcongr]
      exact hinv hw

/-- C2. Starting from a workspace list in which every handle lies in at
most one workspace, any sequence of assign_app_to_workspace calls keeps
every handle in the hwnds list of at most one workspace. -/
theorem assign_app_at_most_one_workspace (calls : List AssignCall)
    (init : List Workspace)
    (hinit : ∀ hw : Int, workspacesHolding init hw ≤ 1) :
    ∀ hw : Int, workspacesHolding (runAssigns init calls) hw ≤ 1 := by
  induction calls generalizing init with
  | nil => exact hinit
  | cons c rest ih =>
    have hstep := assign_preserves_at_most_one init hinit c.workspace_index
      c.hwnd c.app_name c.monitor
    exact ih _ hstep

/-- C2 witness: two reassignments of the same handle starting from the
empty workspace list leave it in at most one workspace. -/
theorem assign_app_at_most_one_workspace_witness :
    workspacesHolding
      (runAssigns []
        [AssignCall.mk 0 7 "app" 0, AssignCall.mk 1 7 "app" 0]) 7 ≤ 1 :=
  assign_app_at_most_one_workspace
    [AssignCall.mk 0 7 "app" 0, AssignCall.mk 1 7 "app" 0] []
    (fun hw => by simp [workspacesHolding]) 7

/-- Embeds the SystemForeground arm of OverlayHandler::update_apps acting
on the current_active_app field: when a focus is already held, the write
in the inner branch stores that same held handle back, and the equal case
leaves the field untouched, so either way the held handle survives; only
an absent focus adopts the event's window. -/
def updateFocusOnForeground (current_active_app : Option Int)
    (appHwnd : Int) : Option Int :=
  match current_active_app with
  | some hwnd => if hwnd ≠ appHwnd then some hwnd else some hwnd
  | none => some appHwnd

/-- C9. A SystemForeground event never replaces a held focus and fills an
absent one with the event's window handle. -/
theorem systemforeground_focus_asymmetry (appHwnd : Int) :
    (∀ hwnd : Int,
      updateFocusOnForeground (some hwnd) appHwnd = some hwnd) ∧
    updateFocusOnForeground none appHwnd = some appHwnd := by
  refine ⟨fun hwnd => ?_, rfl⟩
  show (if hwnd ≠ appHwnd then some hwnd else some hwnd) = some hwnd
  split_ifs <;> rfl

/-- The state of OverlayHandler that delete_app touches: the keys of the
apps map, the workspaces, and the focused-window reference. The border
overlay side effects (clear_focus, remove_topmost) go to the renderer and
carry no manager state. -/
structure OverlayDeleteState where
  apps : List Int
  workspaces : List Workspace
  current_active_app : Option Int
deriving DecidableEq, Repr

/-- Embeds the iter_mut().find pattern of delete_app: the first workspace
whose list mentions the handle loses every item with that handle, and the
flag reports whether such a workspace existed. -/
def removeFromFirstWorkspace (wss : List Workspace) (hwnd : Int) :
    List Workspace × Bool :=
  match wss with
  | [] => ([], false)
  | ws :: rest =>
    if ws.hwnds.any (fun h => h.hwnd = hwnd) then
      ({ ws with hwnds := ws.hwnds.filter (fun h => h.hwnd ≠ hwnd) } :: rest,
        true)
    else
      let r := removeFromFirstWorkspace rest hwnd
      (ws :: r.1, r.2)

/-- Embeds OverlayHandler::delete_app: the app record is removed, and when
some workspace held the handle, that workspace drops it and the focused
window reference is set to None inside the same branch. -/
def delete_app (st : OverlayDeleteState) (appHwnd : Int) : OverlayDeleteState :=
  let apps := st.apps.filter (fun h => h ≠ appHwnd)
  let removed := removeFromFirstWorkspace st.workspaces appHwnd
  { apps := apps
    workspaces := removed.1
    current_active_app :=
      if removed.2 then none else st.current_active_app }

def exDeleteState : OverlayDeleteState :=
  { apps := [1, 2]
    workspaces := [Workspace.mk "Main" true [HwndItem.mk 1 "app" 0 none]]
    current_active_app := some 2 }

/-- C10 counterexample: window 2 is focused; deleting window 1, which sits
in a workspace, clears the focus reference even though the focus referred
to a different window, against the claim that it would be left unchanged. -/
theorem delete_app_focus_counterexample :
    exDeleteState.current_active_app = some 2 ∧
    ((2 : Int) = 1 → False) ∧
    (delete_app exDeleteState 1).current_active_app = none := by
  decide

/-- C10 amended: delete_app clears the focused-window reference exactly
when the deleted handle is found in some workspace's membership list,
regardless of whether the focus referred to the deleted window; when no
workspace holds the handle the focus is kept, even a focus equal to the
deleted handle. -/
theorem delete_app_focus_clearing (st : OverlayDeleteState) (appHwnd : Int) :
    (delete_app st appHwnd).current_active_app =
      if st.workspaces.any (fun ws => ws.hwnds.any (fun h => h.hwnd = appHwnd))
      then none else st.current_active_app := by
  have key : ∀ wss : List Workspace,
      (removeFromFirstWorkspace wss appHwnd).2 =
        wss.any (fun ws => ws.hwnds.any (fun h => h.hwnd = appHwnd)) := by
    intro wss
    induction wss with
    | nil => rfl
    | cons ws rest ih =>
      unfold removeFromFirstWorkspace
      by_cases hc : ws.hwnds.any (fun h => decide (h.hwnd = appHwnd)) = true
      · simp [hc]
      · simp only [Bool.not_eq_true] at hc
        simp [hc, ih]
  have hfocus : (delete_app st appHwnd).current_active_app =
      if (removeFromFirstWorkspace st.workspaces appHwnd).2 then none
      else st.current_active_app := rfl
  rw [hfocus, key st.workspaces]

/-! Reorder pass (src/src/overlay/overlay_handler.rs line 537 and
src/src/hook/api.rs line 779) -/

/-- A set_app_position command: the window keeps its size; only x and y
are supplied. -/
structure PosCmd where
  hwnd : Int
  x : Int
  y : Int
deriving DecidableEq, Repr

/-- A live AppInfo record reduced to the fields the reorder passes read:
the handle and the current position. -/
structure AppRec where
  hwnd : Int
  posX : Int
  posY : Int
deriving DecidableEq, Repr

def findApp (apps : List AppRec) (hwnd : Int) : Option AppRec :=
  apps.find? (fun a => a.hwnd = hwnd)

/-- Embeds WidgetSlots::get_active_workspace_for_monitor:
active_workspace_per_monitor.get(monitor).copied().unwrap_or(0). -/
def get_active_workspace_for_monitor (awpm : List Nat) (monitor : Nat) : Nat :=
  awpm.getD monitor 0

/-- Embeds OverlayHandler::get_statusbar_height with
STATUSBAR_HEIGHT = 30.0 cast to i32. -/
def overlay_get_statusbar_height (monitor : Nat) : Int :=
  if monitor = 0 then 30 else 0

/-- One membership record processed by the overlay handler's
reorder_app_pos_in_workspace. The method takes a shared reference and
iterates a clone of the workspaces, so the capture branch (active, no
parked position) mutates only the clone: nothing persists and no command
is emitted; the inactive parked branch pushes y to the literal 2000. -/
def overlay_reorder_item (apps : List AppRec) (awpm : List Nat) (index : Nat)
    (item : HwndItem) : List PosCmd :=
  let is_active := get_active_workspace_for_monitor awpm item.monitor = index
  match findApp apps item.hwnd with
  | none => []
  | some app =>
    if is_active then
      match item.parked_position with
      | some parked_pos =>
        [PosCmd.mk app.hwnd app.posX
          (max parked_pos (overlay_get_statusbar_height item.monitor))]
      | none => []
    else if item.parked_position.isSome then
      [PosCmd.mk app.hwnd app.posX 2000]
    else []

/-- Embeds OverlayHandler::reorder_app_pos_in_workspace as the sequence of
set_app_position commands it sends, in iteration order. -/
def overlay_reorder_app_pos_in_workspace (apps : List AppRec) (awpm : List Nat)
    (wss : List Workspace) : List PosCmd :=
  ((wss.enum).map (fun p =>
    (p.2.hwnds.map (overlay_reorder_item apps awpm p.1)).flatten)).flatten

/-- One membership record processed by the hook api's
reorder_app_pos_in_workspace, which holds a mutable reference: the capture
branch persists the parked position into the workspace state, the restore
branch raises y to the toolbar height of the monitor the OS resolves for
the window (the monOf oracle), and the inactive parked branch pushes y to
the off-screen sentinel -2000. -/
def api_reorder_item (apps : List AppRec) (awpm : List Nat) (monOf : Int → Nat)
    (index : Nat) (item : HwndItem) : HwndItem × List PosCmd :=
  let is_active := (awpm.getD item.monitor 0) = index
  match findApp apps item.hwnd with
  | none => (item, [])
  | some appinfo =>
    if is_active then
      let toolbar_height := get_toolbar_height (monOf appinfo.hwnd)
      match item.parked_position with
      | some parked_pos =>
        (item, [PosCmd.mk item.hwnd appinfo.posX (max parked_pos toolbar_height)])
      | none =>
        ({ item with parked_position := some (max appinfo.posY toolbar_height) },
          [])
    else if item.parked_position.isSome then
      (item, [PosCmd.mk item.hwnd appinfo.posX (-2000)])
    else (item, [])

/-- Embeds WindowHookHandler::reorder_app_pos_in_workspace: the updated
workspace state plus the emitted commands. -/
def api_reorder_app_pos_in_workspace (apps : List AppRec) (awpm : List Nat) (monOf : Int → Nat)
    (wss : List Workspace) : List Workspace × List PosCmd :=
  let results := wss.enum.map (fun p =>
    let itemResults := p.2.hwnds.map (api_reorder_item apps awpm monOf p.1)
    ({ p.2 with hwnds := itemResults.map Prod.fst },
      (itemResults.map Prod.snd).flatten))
  (results.map Prod.fst, (results.map Prod.snd).flatten)

/-- C1. Evaluation at the failing input: one workspace whose single record
(hwnd 7, monitor 0, parked at 100) is inactive because monitor 0's active
workspace index is 1. The overlay handler's reorder pass sends y = 2000,
not the off-screen sentinel -2000 that the claim states and that the hook
api's reorder pass sends at the same state; moreover, for a parked-less
active record the overlay pass (shared reference, cloned workspaces)
cannot persist the captured position, while the hook api pass does. -/
theorem reorder_sentinel_code_bug :
    overlay_reorder_app_pos_in_workspace [AppRec.mk 7 10 100] [1]
        [Workspace.mk "Main" true [HwndItem.mk 7 "app" 0 (some 100)]] =
      [PosCmd.mk 7 10 2000] ∧
    (api_reorder_app_pos_in_workspace [AppRec.mk 7 10 100] [1] (fun _ => 0)
        [Workspace.mk "Main" true [HwndItem.mk 7 "app" 0 (some 100)]]).2 =
      [PosCmd.mk 7 10 (-2000)] ∧
    ((2000 : Int) = -2000 → False) ∧
    (api_reorder_app_pos_in_workspace [AppRec.mk 7 10 100] [0] (fun _ => 0)
        [Workspace.mk "Main" true [HwndItem.mk 7 "app" 0 none]]).1 =
      [Workspace.mk "Main" true [HwndItem.mk 7 "app" 0 (some 100)]] := by
  decide

/-! Animation easing (src/src/hook/animation.rs), embedded over the
reals: f64 constants become their literal decimal values, powi becomes a
natural power, powf becomes a real power, and the trigonometric constants
FRAC_PI_2 and PI become pi over two and pi. -/

inductive AnimationEasing where
  | EaseInSine
  | EaseOutSine
  | EaseInOutSine
  | EaseInQuad
  | EaseOutQuad
  | EaseInOutQuad
  | EaseInCubic
  | EaseOutCubic
  | EaseInOutCubic
  | EaseInQuart
  | EaseOutQuart
  | EaseInOutQuart
  | EaseInQuint
  | EaseOutQuint
  | EaseInOutQuint
  | EaseInExpo
  | EaseOutExpo
  | EaseInOutExpo
  | EaseInCirc
  | EaseOutCirc
  | EaseInOutCirc
  | EaseOutBack
  | EaseInOutBack
  | EaseOutElastic
  | EaseOutBounce
  | EaseInBounce
deriving DecidableEq, Repr

/-- The four-segment bounce of the EaseOutBounce arm, shared with the
EaseInBounce arm which calls EaseOutBounce.evaluate on 1 - t. -/
noncomputable def easeOutBounce (t : ℝ) : ℝ :=
  let n1 : ℝ := 7.5625
  let d1 : ℝ := 2.75
  if t < 1 / d1 then n1 * t * t
  else if t < 2 / d1 then
    let ts := t - 1.5 / d1
    n1 * ts * ts + 0.75
  else if t < 2.5 / d1 then
    let ts := t - 2.25 / d1
    n1 * ts * ts + 0.9375
  else
    let ts := t - 2.625 / d1
    n1 * ts * ts + 0.984375

/-- Embeds AnimationEasing::evaluate arm by arm. -/
noncomputable def AnimationEasing.evaluate : AnimationEasing → ℝ → ℝ
  | .EaseInSine, t => 1 - Real.cos (t * (Real.pi / 2))
  | .EaseOutSine, t => Real.sin (t * (Real.pi / 2))
  | .EaseInOutSine, t => -(Real.cos (t * Real.pi) - 1) / 2
  | .EaseInQuad, t => t * t
  | .EaseOutQuad, t => 1 - (1 - t) * (1 - t)
  | .EaseInOutQuad, t =>
    if t < 0.5 then 2 * t * t else 1 - (-2 * t + 2) ^ (2 : ℕ) / 2
  | .EaseInCubic, t => t * t * t
  | .EaseOutCubic, t => 1 - (1 - t) ^ (3 : ℕ)
  | .EaseInOutCubic, t =>
    if t < 0.5 then 4 * t * t * t else 1 - (-2 * t + 2) ^ (3 : ℕ) / 2
  | .EaseInQuart, t => t * t * t * t
  | .EaseOutQuart, t => 1 - (1 - t) ^ (4 : ℕ)
  | .EaseInOutQuart, t =>
    if t < 0.5 then 8 * t * t * t * t else 1 - (-2 * t + 2) ^ (4 : ℕ) / 2
  | .EaseInQuint, t => t * t * t * t * t
  | .EaseOutQuint, t => 1 - (1 - t) ^ (5 : ℕ)
  | .EaseInOutQuint, t =>
    if t < 0.5 then 16 * t * t * t * t * t
    else 1 - (-2 * t + 2) ^ (5 : ℕ) / 2
  | .EaseInExpo, t => if t = 0 then 0 else (2 : ℝ) ^ (10 * t - 10)
  | .EaseOutExpo, t => if t = 1 then 1 else 1 - (2 : ℝ) ^ (-10 * t)
  | .EaseInOutExpo, t =>
    if t = 0 then 0
    else if t = 1 then 1
    else if t < 0.5 then (2 : ℝ) ^ (20 * t - 10) / 2
    else (2 - (2 : ℝ) ^ (-20 * t + 10)) / 2
  | .EaseInCirc, t => 1 - Real.sqrt (1 - t * t)
  | .EaseOutCirc, t => Real.sqrt (1 - (t - 1) ^ (2 : ℕ))
  | .EaseInOutCirc, t =>
    if t < 0.5 then (1 - Real.sqrt (1 - (2 * t) ^ (2 : ℕ))) / 2
    else (Real.sqrt (1 - (-2 * t + 2) ^ (2 : ℕ)) + 1) / 2
  | .EaseOutBack, t =>
    let c1 : ℝ := 1.70158
    let c3 : ℝ := c1 + 1
    1 + c3 * (t - 1) ^ (3 : ℕ) + c1 * (t - 1) ^ (2 : ℕ)
  | .EaseInOutBack, t =>
    let c1 : ℝ := 1.70158
    let c2 : ℝ := c1 * 1.525
    if t < 0.5 then ((2 * t) ^ (2 : ℕ) * ((c2 + 1) * 2 * t - c2)) / 2
    else ((2 * t - 2) ^ (2 : ℕ) * ((c2 + 1) * (t * 2 - 2) + c2) + 2) / 2
  | .EaseOutElastic, t =>
    let c4 : ℝ := 2 * Real.pi / 3
    if t = 0 then 0
    else if t = 1 then 1
    else (2 : ℝ) ^ (-10 * t) * Real.sin ((t * 10 - 0.75) * c4) + 1
  | .EaseOutBounce, t => easeOutBounce t
  | .EaseInBounce, t => 1 - easeOutBounce (1 - t)

/-- Modelled from the spec: the four-segment bounce row of the easing
table in section 4.6 (segment boundaries 1/d1, 2/d1, 2.5/d1; offsets
1.5/d1, 2.25/d1, 2.625/d1; added constants 0, 0.75, 0.9375, 0.984375). -/
noncomputable def specOutBounce (t : ℝ) : ℝ :=
  let n1 : ℝ := 7.5625
  let d1 : ℝ := 2.75
  if t < 1 / d1 then n1 * t ^ (2 : ℕ)
  else if t < 2 / d1 then n1 * (t - 1.5 / d1) ^ (2 : ℕ) + 0.75
  else if t < 2.5 / d1 then n1 * (t - 2.25 / d1) ^ (2 : ℕ) + 0.9375
  else n1 * (t - 2.625 / d1) ^ (2 : ℕ) + 0.984375

/-- Modelled from the spec: the literal equations of the easing table in
section 4.6, one row per variant. -/
noncomputable def specEase : AnimationEasing → ℝ → ℝ
  | .EaseInSine, t => 1 - Real.cos (t * Real.pi / 2)
  | .EaseOutSine, t => Real.sin (t * Real.pi / 2)
  | .EaseInOutSine, t => -(Real.cos (Real.pi * t) - 1) / 2
  | .EaseInQuad, t => t ^ (2 : ℕ)
  | .EaseOutQuad, t => 1 - (1 - t) ^ (2 : ℕ)
  | .EaseInOutQuad, t =>
    if t < 0.5 then 2 * t ^ (2 : ℕ) else 1 - (-2 * t + 2) ^ (2 : ℕ) / 2
  | .EaseInCubic, t => t ^ (3 : ℕ)
  | .EaseOutCubic, t => 1 - (1 - t) ^ (3 : ℕ)
  | .EaseInOutCubic, t =>
    if t < 0.5 then 4 * t ^ (3 : ℕ) else 1 - (-2 * t + 2) ^ (3 : ℕ) / 2
  | .EaseInQuart, t => t ^ (4 : ℕ)
  | .EaseOutQuart, t => 1 - (1 - t) ^ (4 : ℕ)
  | .EaseInOutQuart, t =>
    if t < 0.5 then 8 * t ^ (4 : ℕ) else 1 - (-2 * t + 2) ^ (4 : ℕ) / 2
  | .EaseInQuint, t => t ^ (5 : ℕ)
  | .EaseOutQuint, t => 1 - (1 - t) ^ (5 : ℕ)
  | .EaseInOutQuint, t =>
    if t < 0.5 then 16 * t ^ (5 : ℕ)
    else 1 - (-2 * t + 2) ^ (5 : ℕ) / 2
  | .EaseInExpo, t => if t = 0 then 0 else (2 : ℝ) ^ (10 * t - 10)
  | .EaseOutExpo, t => if t = 1 then 1 else 1 - (2 : ℝ) ^ (-10 * t)
  | .EaseInOutExpo, t =>
    if t = 0 then 0
    else if t = 1 then 1
    else if t < 0.5 then (2 : ℝ) ^ (20 * t - 10) / 2
    else (2 - (2 : ℝ) ^ (-20 * t + 10)) / 2
  | .EaseInCirc, t => 1 - Real.sqrt (1 - t ^ (2 : ℕ))
  | .EaseOutCirc, t => Real.sqrt (1 - (t - 1) ^ (2 : ℕ))
  | .EaseInOutCirc, t =>
    if t < 0.5 then (1 - Real.sqrt (1 - (2 * t) ^ (2 : ℕ))) / 2
    else (Real.sqrt (1 - (-2 * t + 2) ^ (2 : ℕ)) + 1) / 2
  | .EaseOutBack, t =>
    1 + (1.70158 + 1) * (t - 1) ^ (3 : ℕ) + 1.70158 * (t - 1) ^ (2 : ℕ)
  | .EaseInOutBack, t =>
    if t < 0.5 then
      ((2 * t) ^ (2 : ℕ) * ((1.70158 * 1.525 + 1) * 2 * t - 1.70158 * 1.525)) / 2
    else
      ((2 * t - 2) ^ (2 : ℕ) *
        ((1.70158 * 1.525 + 1) * (2 * t - 2) + 1.70158 * 1.525) + 2) / 2
  | .EaseOutElastic, t =>
    if t = 0 then 0
    else if t = 1 then 1
    else (2 : ℝ) ^ (-10 * t) * Real.sin ((10 * t - 0.75) * (2 * Real.pi / 3)) + 1
  | .EaseOutBounce, t => specOutBounce t
  | .EaseInBounce, t => 1 - specOutBounce (1 - t)

lemma easeOutBounce_eq_spec (t : ℝ) : easeOutBounce t = specOutBounce t := by
  simp only [easeOutBounce, specOutBounce]
  split_ifs <;> ring

lemma easeOutBounce_zero : easeOutBounce 0 = 0 := by
  simp only [easeOutBounce]
  rw [if_pos (by norm_num)]
  norm_num

lemma easeOutBounce_one : easeOutBounce 1 = 1 := by
  simp only [easeOutBounce]
  rw [if_neg (by norm_num), if_neg (by norm_num), if_neg (by norm_num)]
  norm_num

/-- C8. Every easing variant maps 0 to 0 and 1 to 1 (exactly, in the real
embedding, so in particular within floating tolerance), the piecewise
special cases of the expo variants included, and every variant agrees with
the literal equation of the spec's easing table at every input. -/
theorem easing_boundary_and_table (e : AnimationEasing) :
    AnimationEasing.evaluate e 0 = 0 ∧ AnimationEasing.evaluate e 1 = 1 ∧
      ∀ t : ℝ, AnimationEasing.evaluate e t = specEase e t := by
  cases e with
  | EaseInSine =>
    refine ⟨?_, ?_, fun t => ?_⟩
    · simp only [AnimationEasing.evaluate]
      norm_num
    · simp only [AnimationEasing.evaluate]
      norm_num [Real.cos_pi_div_two]
    · simp only [AnimationEasing.evaluate, specEase]
      rw [mul_div_assoc]
  | EaseOutSine =>
    refine ⟨?_, ?_, fun t => ?_⟩
    · simp only [AnimationEasing.evaluate]
      norm_num
    · simp only [AnimationEasing.evaluate]
      norm_num [Real.sin_pi_div_two]
    · simp only [AnimationEasing.evaluate, specEase]
      rw [mul_div_assoc]
  | EaseInOutSine =>
    refine ⟨?_, ?_, fun t => ?_⟩
    · simp only [AnimationEasing.evaluate]
      norm_num
    · simp only [AnimationEasing.evaluate]
      norm_num [Real.cos_pi]
    · simp only [AnimationEasing.evaluate, specEase]
      rw [mul_comm Real.pi t]
  | EaseInQuad =>
    refine ⟨by norm_num [AnimationEasing.evaluate],
      by norm_num [AnimationEasing.evaluate], fun t => ?_⟩
    simp only [AnimationEasing.evaluate, specEase]
    ring
  | EaseOutQuad =>
    refine ⟨by norm_num [AnimationEasing.evaluate],
      by norm_num [AnimationEasing.evaluate], fun t => ?_⟩
    simp only [AnimationEasing.evaluate, specEase]
    ring
  | EaseInOutQuad =>
    refine ⟨by norm_num [AnimationEasing.evaluate],
      by norm_num [AnimationEasing.evaluate], fun t => ?_⟩
    simp only [AnimationEasing.evaluate, specEase]
    split_ifs <;> ring
  | EaseInCubic =>
    refine ⟨by norm_num [AnimationEasing.evaluate],
      by norm_num [AnimationEasing.evaluate], fun t => ?_⟩
    simp only [AnimationEasing.evaluate, specEase]
    ring
  | EaseOutCubic =>
    refine ⟨by norm_num [AnimationEasing.evaluate],
      by norm_num [AnimationEasing.evaluate], fun t => ?_⟩
    simp only [AnimationEasing.evaluate, specEase]
  | EaseInOutCubic =>
    refine ⟨by norm_num [AnimationEasing.evaluate],
      by norm_num [AnimationEasing.evaluate], fun t => ?_⟩
    simp only [AnimationEasing.evaluate, specEase]
    split_ifs <;> ring
  | EaseInQuart =>
    refine ⟨by norm_num [AnimationEasing.evaluate],
      by norm_num [AnimationEasing.evaluate], fun t => ?_⟩
    simp only [AnimationEasing.evaluate, specEase]
    ring
  | EaseOutQuart =>
    refine ⟨by norm_num [AnimationEasing.evaluate],
      by norm_num [AnimationEasing.evaluate], fun t => ?_⟩
    simp only [AnimationEasing.evaluate, specEase]
  | EaseInOutQuart =>
    refine ⟨by norm_num [AnimationEasing.evaluate],
      by norm_num [AnimationEasing.evaluate], fun t => ?_⟩
    simp only [AnimationEasing.evaluate, specEase]
    split_ifs <;> ring
  | EaseInQuint =>
    refine ⟨by norm_num [AnimationEasing.evaluate],
      by norm_num [AnimationEasing.evaluate], fun t => ?_⟩
    simp only [AnimationEasing.evaluate, specEase]
    ring
  | EaseOutQuint =>
    refine ⟨by norm_num [AnimationEasing.evaluate],
      by norm_num [AnimationEasing.evaluate], fun t => ?_⟩
    simp only [AnimationEasing.evaluate, specEase]
  | EaseInOutQuint =>
    refine ⟨by norm_num [AnimationEasing.evaluate],
      by norm_num [AnimationEasing.evaluate], fun t => ?_⟩
    simp only [AnimationEasing.evaluate, specEase]
    split_ifs <;> ring
  | EaseInExpo =>
    refine ⟨?_, ?_, fun t => rfl⟩
    · simp only [AnimationEasing.evaluate]
      norm_num
    · simp only [AnimationEasing.evaluate]
      rw [if_neg (by norm_num)]
      norm_num [Real.rpow_zero]
  | EaseOutExpo =>
    refine ⟨?_, ?_, fun t => rfl⟩
    · simp only [AnimationEasing.evaluate]
      rw [if_neg (by norm_num)]
      norm_num [Real.rpow_zero]
    · simp only [AnimationEasing.evaluate]
      norm_num
  | EaseInOutExpo =>
    refine ⟨?_, ?_, fun t => rfl⟩
    · simp only [AnimationEasing.evaluate]
      norm_num
    · simp only [AnimationEasing.evaluate]
      norm_num
  | EaseInCirc =>
    refine ⟨?_, ?_, fun t => ?_⟩
    · simp only [AnimationEasing.evaluate]
      norm_num
    · simp only [AnimationEasing.evaluate]
      norm_num
    · simp only [AnimationEasing.evaluate, specEase]
      rw [pow_two]
  | EaseOutCirc =>
    refine ⟨?_, ?_, fun t => rfl⟩
    · simp only [AnimationEasing.evaluate]
      norm_num
    · simp only [AnimationEasing.evaluate]
      norm_num
  | EaseInOutCirc =>
    refine ⟨?_, ?_, fun t => rfl⟩
    · simp only [AnimationEasing.evaluate]
      norm_num
    · simp only [AnimationEasing.evaluate]
      rw [if_neg (by norm_num)]
      norm_num
  | EaseOutBack =>
    refine ⟨?_, ?_, fun t => rfl⟩
    · simp only [AnimationEasing.evaluate]
      norm_num
    · simp only [AnimationEasing.evaluate]
      norm_num
  | EaseInOutBack =>
    refine ⟨?_, ?_, fun t => ?_⟩
    · simp only [AnimationEasing.evaluate]
      norm_num
    · simp only [AnimationEasing.evaluate]
      rw [if_neg (by norm_num)]
      norm_num
    · simp only [AnimationEasing.evaluate, specEase]
      split_ifs <;> ring
  | EaseOutElastic =>
    refine ⟨?_, ?_, fun t => ?_⟩
    · simp only [AnimationEasing.evaluate]
      norm_num
    · simp only [AnimationEasing.evaluate]
      norm_num
    · simp only [AnimationEasing.evaluate, specEase]
      split_ifs with h1 h2
      · rfl
      · rfl
      · rw [mul_comm t 10]
  | EaseOutBounce =>
    exact ⟨easeOutBounce_zero, easeOutBounce_one,
      fun t => easeOutBounce_eq_spec t⟩
  | EaseInBounce =>
    refine ⟨?_, ?_, fun t => ?_⟩
    · show 1 - easeOutBounce (1 - 0) = 0
      norm_num [easeOutBounce_one]
    · show 1 - easeOutBounce (1 - 1) = 1
      norm_num [easeOutBounce_zero]
    · show 1 - easeOutBounce (1 - t) = 1 - specOutBounce (1 - t)
      rw [easeOutBounce_eq_spec]
